import Mathlib

/-!
# Verification of the unpackit archive-extraction library

A shallow embedding of `unzipit.go` (package `unzipit`): the magic-number
sniffer, the path sanitizer, the decompression wrappers, the ZIP and TAR
extractors and the `UnpackStream` orchestrator.  Byte streams are modelled
as `List Nat` (byte values), paths as `String`, and filesystem effects as
explicit traces of operations.  The Go standard-library path helpers
(`filepath.Clean`, `filepath.Join`, `filepath.Dir`, `filepath.Split`) are
external collaborators of the code; they are modelled here with their
documented Unix semantics (the build with `runtime.GOOS != "windows"`,
where `filepath.Clean` is `path.Clean` and `filepath.ToSlash` is the
identity).
-/

/-- Errors surfaced by the Go code (`error` values): stream read/peek
failures, decoder-initialization failures, archive-parse failures. -/
inductive GoErr where
  | readErr
  | decodeErr
  | zipErr
deriving DecidableEq, Repr

instance {ε α : Type} [DecidableEq ε] [DecidableEq α] :
    DecidableEq (Except ε α) := fun x y =>
  match x, y with
  | .ok a, .ok b =>
    if h : a = b then .isTrue (congrArg Except.ok h)
    else .isFalse (fun hh => h (Except.ok.inj hh))
  | .error a, .error b =>
    if h : a = b then .isTrue (congrArg Except.error h)
    else .isFalse (fun hh => h (Except.error.inj hh))
  | .ok _, .error _ => .isFalse (fun hh => Except.noConfusion hh)
  | .error _, .ok _ => .isFalse (fun hh => Except.noConfusion hh)

/-! ## Path splitting and joining on `/` (helpers for the `path.Clean` model) -/

/-- Split a character list on `'/'`, like Go's `strings.Split(s, "/")`:
`"a/b" ↦ ["a","b"]`, `"/a" ↦ ["","a"]`, `"" ↦ [""]`. -/
def splitSlash : List Char → List (List Char)
  | [] => [[]]
  | c :: cs =>
    if c = '/' then [] :: splitSlash cs
    else
      match splitSlash cs with
      | [] => [[c]]
      | s :: ss => (c :: s) :: ss

/-- Join segments with `'/'`, like Go's `strings.Join(ss, "/")`. -/
def joinSlash : List (List Char) → List Char
  | [] => []
  | [s] => s
  | s :: ss => s ++ '/' :: joinSlash ss

/-- One step of the lexical-cleaning stack machine used to model Go's
`path.Clean`: skip empty and `"."` segments, resolve `".."` against the
stack (popping a normal segment, accumulating `".."` when unrooted,
discarding it when rooted), push everything else.  The stack is kept
top-first. -/
def cleanPush (rooted : Bool) (stack : List (List Char)) (seg : List Char) :
    List (List Char) :=
  if seg = [] ∨ seg = ['.'] then stack
  else if seg = ['.', '.'] then
    match stack with
    | [] => if rooted then [] else [['.', '.']]
    | top :: rest => if top = ['.', '.'] then ['.', '.'] :: top :: rest else rest
  else seg :: stack

/-- Models Go's `filepath.Clean` with Unix semantics (= `path.Clean`):
lexically normalize a path, collapsing `"."`, `".."` and repeated
separators; the empty path cleans to `"."`. -/
def clean (cs : List Char) : List Char :=
  if cs = [] then ['.']
  else if cs.head? = some '/' then
    '/' :: joinSlash ((splitSlash cs).foldl (cleanPush true) []).reverse
  else
    let segs := ((splitSlash cs).foldl (cleanPush false) []).reverse
    if segs = [] then ['.'] else joinSlash segs

/-- The `for strings.HasPrefix(name, "../") { name = name[3:] }` loop of
`sanitize` (unzipit.go:426-428): repeatedly strip a leading `"../"`. -/
def stripDotDot : List Char → List Char
  | c1 :: c2 :: c3 :: rest =>
    if c1 = '.' ∧ c2 = '.' ∧ c3 = '/' then stripDotDot rest
    else c1 :: c2 :: c3 :: rest
  | cs => cs

/-- `sanitize` (unzipit.go:418-431) on character lists, for the Unix build:
the `runtime.GOOS == "windows"` drive-letter branch is not taken,
`filepath.Clean` is `path.Clean` and `filepath.ToSlash` is the identity,
so the function is the clean step followed by the leading-`"../"` strip
loop. -/
def sanitizeL (name : List Char) : List Char :=
  stripDotDot (clean name)

/-- `sanitize` (unzipit.go:418-431): sanitizes an archive-entry name to
avoid writing outside the destination when unarchiving. -/
def sanitize (name : String) : String :=
  ⟨sanitizeL name.data⟩

/-- Models Go's `filepath.Join(a, b)` with Unix semantics: join the
non-empty elements with `"/"` and clean the result; all-empty input gives
`""`. -/
def joinL (a b : List Char) : List Char :=
  if a = [] then (if b = [] then [] else clean b)
  else if b = [] then clean a
  else clean (a ++ '/' :: b)

/-- `filepath.Join` on strings. -/
def joinS (a b : String) : String :=
  ⟨joinL a.data b.data⟩

/-- Models Go's `filepath.Dir` with Unix semantics: everything up to and
including the final `'/'`, cleaned; `"."` when there is no separator. -/
def dirOfS (p : String) : String :=
  match p.data.reverse.findIdx? (fun c => c == '/') with
  | none => ⟨clean []⟩
  | some k => ⟨clean (p.data.take (p.data.length - k))⟩

/-- Models the directory part of Go's `filepath.Split`: everything up to
and including the final `'/'`, not cleaned; `""` when there is no
separator. -/
def splitDirS (p : String) : String :=
  match p.data.reverse.findIdx? (fun c => c == '/') with
  | none => ""
  | some k => ⟨p.data.take (p.data.length - k)⟩

/-! ## The magic-number sniffer (unzipit.go:47-74) -/

/-- `magicZIP = []byte{0x50, 0x4b, 0x03, 0x04}` (unzipit.go:31). -/
def magicZIP : List Nat := [0x50, 0x4b, 0x03, 0x04]

/-- `magicGZ = []byte{0x1f, 0x8b}` (unzipit.go:32). -/
def magicGZ : List Nat := [0x1f, 0x8b]

/-- `magicBZIP = []byte{0x42, 0x5a}` (unzipit.go:33). -/
def magicBZIP : List Nat := [0x42, 0x5a]

/-- `magicTAR = []byte{0x75, 0x73, 0x74, 0x61, 0x72}` (unzipit.go:34). -/
def magicTAR : List Nat := [0x75, 0x73, 0x74, 0x61, 0x72]

/-- `magicXZ = []byte{0xfd, 0x37, 0x7a, 0x58, 0x5a, 0x00}` (unzipit.go:35). -/
def magicXZ : List Nat := [0xfd, 0x37, 0x7a, 0x58, 0x5a, 0x00]

/-- `magicNumber` (unzipit.go:47-74): peek `offset+6` bytes
(`bufio.Reader.Peek` — inlined here, it fails iff fewer than `offset+6`
bytes are available, without consuming the stream), then compare the
6-byte window at `offset` against the TAR, ZIP, GZIP, BZIP2 and XZ
signatures in that order; `""` when nothing matches, an error only when
the peek fails. -/
def magicNumber (reader : List Nat) (offset : Nat) : Except GoErr String :=
  if offset + 6 ≤ reader.length then
    if ((reader.take (offset + 6)).drop offset).take 5 = magicTAR then
      .ok "tar"
    else if ((reader.take (offset + 6)).drop offset).take 4 = magicZIP then
      .ok "zip"
    else if ((reader.take (offset + 6)).drop offset).take 2 = magicGZ then
      .ok "gzip"
    else if ((reader.take (offset + 6)).drop offset).take 2 = magicBZIP then
      .ok "bzip"
    else if (reader.take (offset + 6)).drop offset = magicXZ then
      .ok "xz"
    else .ok ""
  else .error .readErr

/-! ## Decompression wrappers (unzipit.go:188-235)

The codec initializers themselves (`gzip.NewReader`, `bzip2.NewReader`,
`xz.NewReader`) are external collaborators; they are passed in as
functions.  `gzip.NewReader` and `xz.NewReader` read the stream header
eagerly and can return an error; Go's `bzip2.NewReader` has type
`func(io.Reader) io.Reader` — it cannot return an error, all validation
happens lazily on first read. -/

/-- `GunzipStream` (unzipit.go:204-213): `gzip.NewReader` then a
`bufio.NewReader` wrap; an initialization error propagates and no stream
is returned. -/
def GunzipStream (gzipNewReader : List Nat → Except GoErr (List Nat))
    (reader : List Nat) : Except GoErr (List Nat) :=
  match gzipNewReader reader with
  | .error e => .error e
  | .ok d => .ok d

/-- `UnxzStream` (unzipit.go:226-235): `xz.NewReader` then a
`bufio.NewReader` wrap; an initialization error propagates and no stream
is returned. -/
def UnxzStream (xzNewReader : List Nat → Except GoErr (List Nat))
    (reader : List Nat) : Except GoErr (List Nat) :=
  match xzNewReader reader with
  | .error e => .error e
  | .ok d => .ok d

/-- `Bunzip2Stream` (unzipit.go:188-191):
`return bufio.NewReader(bzip2.NewReader(reader)), nil` — the error result
is always `nil` because `bzip2.NewReader` cannot fail. -/
def Bunzip2Stream (bzip2NewReader : List Nat → List Nat)
    (reader : List Nat) : Except GoErr (List Nat) :=
  .ok (bzip2NewReader reader)

/-! ## Archive entries and the filesystem-effect trace -/

/-- One ZIP archive member (`*zip.File`): declared name, directory flag,
`Mode()` bits, modification time, declared uncompressed size, and the
bytes its entry reader yields. -/
structure ZipEntry where
  name : String
  isDir : Bool
  mode : Nat
  modTime : Nat
  uncompressedSize : Nat
  content : List Nat
deriving DecidableEq, Repr

/-- One TAR header (`*tar.Header`) together with the bytes the tar reader
yields for it. -/
structure TarHeader where
  name : String
  isDir : Bool
  mode : Nat
  modTime : Nat
  content : List Nat
deriving DecidableEq, Repr

/-- A filesystem effect performed during extraction, in program order. -/
inductive FSOp where
  | mkdirAll (path : String) (mode : Nat)
  | create (path : String)
  | chmod (path : String) (mode : Nat)
  | chtimes (path : String) (mtime : Nat)
  | write (path : String) (data : List Nat)
  | logWarn
deriving DecidableEq, Repr

/-- The ambient filesystem state the code observes: whether `os.Lstat`
finds a directory, and whether `Chmod` / `Chtimes` succeed (their
failures are logged, not returned). -/
structure Env where
  lstatExists : String → Bool
  chmodOk : String → Bool
  chtimesOk : String → Bool

/-! ## The ZIP extractor (unzipit.go:269-334) -/

/-- `unzipFile` (unzipit.go:279-334).  Directory entries:
`os.MkdirAll(filepath.Join(destPath, f.Name), f.Mode().Perm())` — note
the raw `f.Name`, not `sanitize(f.Name)`; `Perm()` keeps the low 9
permission bits (`mode % 512`).  File entries: sanitize the name, join,
ensure the parent directory (mode `0700` = 448) when `Lstat` fails,
create the file, `Chmod` and `Chtimes` (failures logged), then
`io.CopyN(file, rc, f.UncompressedSize64)`, which errors when the entry
reader yields fewer bytes than declared. -/
def unzipFile (env : Env) (f : ZipEntry) (destPath : String) :
    List FSOp × Option GoErr :=
  if f.isDir then
    ([.mkdirAll (joinS destPath f.name) (f.mode % 512)], none)
  else
    let filePath := sanitize f.name
    let dest := joinS destPath filePath
    let fileDir := dirOfS dest
    let mk : List FSOp :=
      if env.lstatExists fileDir then [] else [.mkdirAll fileDir 448]
    let ops := mk ++ [.create dest]
      ++ [.chmod dest f.mode]
      ++ (if env.chmodOk dest then [] else [.logWarn])
      ++ [.chtimes dest f.modTime]
      ++ (if env.chtimesOk dest then [] else [.logWarn])
    if f.uncompressedSize ≤ f.content.length then
      (ops ++ [.write dest (f.content.take f.uncompressedSize)], none)
    else
      (ops ++ [.write dest f.content], some .readErr)

/-- `unpackZip` (unzipit.go:269-277): extract each entry in stored order,
aborting on the first error (already-performed effects remain); on
success return `destPath`. -/
def unpackZip (env : Env) (entries : List ZipEntry) (destPath : String) :
    List FSOp × String × Option GoErr :=
  match entries with
  | [] => ([], destPath, none)
  | f :: rest =>
    let (ops, err) := unzipFile env f destPath
    match err with
    | some e => (ops, "", some e)
    | none =>
      let (ops2, p, e2) := unpackZip env rest destPath
      (ops ++ ops2, p, e2)

/-! ## The TAR extractor (unzipit.go:336-415)

Header-read and copy errors of `archive/tar` are not modelled: the
archive is given as its parsed header list, and each header carries the
bytes its reader yields, so extraction of the modelled archive cannot
fail. -/

/-- `untarFile` (unzipit.go:384-415): ensure the parent directory
(`filepath.Split`, mode `0740` = 480), create the file, `Chmod` and
`Chtimes` (failures logged), then copy the whole entry body. -/
def untarFile (env : Env) (hdr : TarHeader) (fp : String) : List FSOp :=
  [.mkdirAll (splitDirS fp) 480, .create fp, .chmod fp hdr.mode]
  ++ (if env.chmodOk fp then [] else [.logWarn])
  ++ [.chtimes fp hdr.modTime]
  ++ (if env.chtimesOk fp then [] else [.logWarn])
  ++ [.write fp hdr.content]

/-- The entry loop of `Untar` (unzipit.go:347-379), threading the
`rootdir` accumulator: skip `pax_global_header`; for a directory entry,
set `rootdir` to `filepath.Join(destPath, sanitize(hdr.Name))` when
`rootdir` still equals `destPath`, and create the directory with the
header's mode bits; for a file entry, extract it. -/
def untarLoop (env : Env) (destPath : String) :
    List TarHeader → String → List FSOp × String
  | [], rootdir => ([], rootdir)
  | hdr :: rest, rootdir =>
    if hdr.name = "pax_global_header" then untarLoop env destPath rest rootdir
    else if hdr.isDir then
      (FSOp.mkdirAll (joinS destPath (sanitize hdr.name)) hdr.mode ::
        (untarLoop env destPath rest
          (if rootdir = destPath then joinS destPath (sanitize hdr.name)
           else rootdir)).1,
       (untarLoop env destPath rest
          (if rootdir = destPath then joinS destPath (sanitize hdr.name)
           else rootdir)).2)
    else
      (untarFile env hdr (joinS destPath (sanitize hdr.name)) ++
        (untarLoop env destPath rest rootdir).1,
       (untarLoop env destPath rest rootdir).2)

/-- `Untar` (unzipit.go:336-382): ensure `destPath` (mode `0740` = 480),
iterate the headers starting from `rootdir = destPath`, return the final
`rootdir`. -/
def Untar (env : Env) (hdrs : List TarHeader) (destPath : String) :
    List FSOp × String :=
  (FSOp.mkdirAll destPath 480 :: (untarLoop env destPath hdrs destPath).1,
   (untarLoop env destPath hdrs destPath).2)

/-! ## The orchestrator (unzipit.go:112-175) -/

/-- The external parsers and decoders `UnpackStream` composes with:
the three codec initializers-plus-decoders and the two archive parsers
(`zip.NewReader`, which can fail, and `archive/tar`, modelled errorless
as a header list). -/
structure Codecs where
  gunzip : List Nat → Except GoErr (List Nat)
  bunzip2 : List Nat → List Nat
  unxz : List Nat → Except GoErr (List Nat)
  parseZip : List Nat → Except GoErr (List ZipEntry)
  parseTar : List Nat → List TarHeader

/-- `UnzipStream` (unzipit.go:254-267): buffer the whole stream, open it
with `zip.NewReader` (which can fail), then `unpackZip`. -/
def UnzipStream (c : Codecs) (env : Env) (data : List Nat)
    (destPath : String) : List FSOp × String × Option GoErr :=
  match c.parseZip data with
  | .error e => ([], "", some e)
  | .ok entries => unpackZip env entries destPath

/-- `UnpackStream` (unzipit.go:112-175): sniff at offset 0; dispatch ZIP
directly; wrap gzip/xz/bzip2 streams (propagating wrap errors); sniff the
(possibly decompressed) stream at offset 257 for TAR (propagating peek
errors); dispatch TAR; otherwise write the remaining bytes verbatim to
`filepath.Join(destPath, sanitize(path.Base("unknown-pack")))`
(`path.Base("unknown-pack") = "unknown-pack"`) and return `destPath`. -/
def UnpackStream (c : Codecs) (env : Env) (input : List Nat)
    (destPath : String) : List FSOp × String × Option GoErr :=
  match magicNumber input 0 with
  | .error e => ([], "", some e)
  | .ok ftype =>
    if ftype = "zip" then UnzipStream c env input destPath
    else
      match (if ftype = "gzip" then GunzipStream c.gunzip input
             else if ftype = "xz" then UnxzStream c.unxz input
             else if ftype = "bzip" then Bunzip2Stream c.bunzip2 input
             else Except.ok input) with
      | .error e => ([], "", some e)
      | .ok dec =>
        match magicNumber dec 257 with
        | .error e => ([], "", some e)
        | .ok ftype2 =>
          if ftype2 = "tar" then
            let (ops, rd) := Untar env (c.parseTar dec) destPath
            (ops, rd, none)
          else
            let destRawFile := joinS destPath (sanitize "unknown-pack")
            ([FSOp.create destRawFile, FSOp.write destRawFile dec],
             destPath, none)

/-- A concrete all-succeeding filesystem environment. -/
def env0 : Env :=
  ⟨fun _ => true, fun _ => true, fun _ => true⟩

/-- A concrete instantiation of the external codecs. -/
def codecs0 : Codecs :=
  ⟨fun _ => .ok [], fun x => x, fun _ => .ok [], fun _ => .error .zipErr,
   fun _ => []⟩

/-! ## Spec-side definitions and notions used to state the claims -/

/-- Spec-side classifier for the 6-byte window at the sniff offset,
following the spec's stated precedence order: TAR magic (5 bytes), then
ZIP (4 bytes), then GZIP (2 bytes), then BZIP2 (2 bytes), then XZ
(6 bytes), then the unknown tag `""`. -/
def classifySpec (magic : List Nat) : String :=
  if magic.take 5 = magicTAR then "tar"
  else if magic.take 4 = magicZIP then "zip"
  else if magic.take 2 = magicGZ then "gzip"
  else if magic.take 2 = magicBZIP then "bzip"
  else if magic = magicXZ then "xz"
  else ""

/-- The file-content-affecting operations of an extraction trace:
creation, metadata application and data copy (directory creation and
warning logs are ambient). -/
def keyOp : FSOp → Bool
  | .create _ => true
  | .chmod _ _ => true
  | .chtimes _ _ => true
  | .write _ _ => true
  | _ => false

/-- Spec-side characterization of `Untar`'s returned root directory: the
resolved path `filepath.Join(destPath, sanitize(name))` of the first
non-`pax_global_header` directory entry whose resolved path differs from
`destPath`; `destPath` when there is no such entry. -/
def firstDirRoot (destPath : String) : List TarHeader → String
  | [] => destPath
  | h :: rest =>
    if h.name ≠ "pax_global_header" ∧ h.isDir = true
        ∧ joinS destPath (sanitize h.name) ≠ destPath
    then joinS destPath (sanitize h.name)
    else firstDirRoot destPath rest

/-- A normal path segment: non-empty, not `"."`, not `".."`, and free of
separators — the segments a cleaned path is built from. -/
def NormalSeg (s : List Char) : Prop :=
  s ≠ [] ∧ s ≠ ['.'] ∧ s ≠ ['.', '.'] ∧ '/' ∉ s

instance (s : List Char) : Decidable (NormalSeg s) := by
  unfold NormalSeg; infer_instance

/-- Invariant of the `cleanPush` stack (kept top-first): a block of
normal segments on top of a block of `".."` segments, the latter empty
for rooted paths. -/
def GoodStack (rooted : Bool) (st : List (List Char)) : Prop :=
  ∃ ns ds, st = ns ++ ds ∧ (∀ s ∈ ns, NormalSeg s)
    ∧ (∀ s ∈ ds, s = ['.', '.']) ∧ (rooted = true → ds = [])

/-- `p` lies within the directory `root` (as path strings): it is `root`
itself or extends it past a separator. -/
def isWithin (root p : List Char) : Prop :=
  p = root ∨ root ++ ['/'] <+: p

instance (root p : List Char) : Decidable (isWithin root p) := by
  unfold isWithin; infer_instance

example : magicNumber [0x1f, 0x8b, 0, 0, 0, 0] 0 = .ok "gzip" := by decide
example : magicNumber [0x50, 0x4b, 0x03, 0x04, 0, 0] 0 = .ok "zip" := by decide
example : magicNumber [0, 0, 0, 0, 0, 0] 0 = .ok "" := by decide
example : magicNumber [0, 0, 0] 0 = .error .readErr := by decide
example : dirOfS "/d/f.txt" = "/d" := by decide
example : dirOfS "f.txt" = "." := by decide
example : splitDirS "a/b" = "a/" := by decide

example : sanitize "nonexistant/b/../file.txt" = "nonexistant/file.txt" := by
  decide
example : sanitize "abc../def" = "abc../def" := by decide

/-! ## Structure of cleaned paths

The lemmas below characterize the output of the `path.Clean` model and
of the leading-`"../"` strip loop: a cleaned path splits into `".."`
segments followed by normal segments (no `".."` at all when rooted), and
the strip loop removes exactly the leading `".."` run. -/

lemma splitSlash_ne_nil (cs : List Char) : splitSlash cs ≠ [] := by
  induction cs with
  | nil => simp [splitSlash]
  | cons c cs ih =>
    rw [splitSlash]
    by_cases h : c = '/'
    · rw [if_pos h]; simp
    · rw [if_neg h]
      rcases hs : splitSlash cs with _ | ⟨s, ss⟩
      · simp
      · simp

lemma splitSlash_no_slash (cs : List Char) : ∀ s ∈ splitSlash cs, '/' ∉ s := by
  induction cs with
  | nil =>
    intro s hs
    simp [splitSlash] at hs
    subst hs; simp
  | cons c cs ih =>
    intro s hs
    rw [splitSlash] at hs
    by_cases h : c = '/'
    · rw [if_pos h] at hs
      rcases List.mem_cons.mp hs with rfl | hs
      · simp
      · exact ih s hs
    · rw [if_neg h] at hs
      rcases hq : splitSlash cs with _ | ⟨t, ts⟩
      · rw [hq] at hs
        simp at hs
        subst hs
        simp [Ne.symm h]
      · rw [hq] at hs
        rcases List.mem_cons.mp hs with rfl | hs
        · have ht := ih t (by rw [hq]; exact List.mem_cons_self _ _)
          simp [Ne.symm h, ht]
        · exact ih s (by rw [hq]; exact List.mem_cons_of_mem _ hs)

lemma splitSlash_single (s : List Char) (h : '/' ∉ s) : splitSlash s = [s] := by
  induction s with
  | nil => rfl
  | cons c cs ih =>
    have hc : ¬ c = '/' := fun e => h (e ▸ List.mem_cons_self c cs)
    have hcs : '/' ∉ cs := fun m => h (List.mem_cons_of_mem _ m)
    rw [splitSlash, if_neg hc, ih hcs]

lemma splitSlash_append (a b : List Char) :
    splitSlash (a ++ '/' :: b) = splitSlash a ++ splitSlash b := by
  induction a with
  | nil => rfl
  | cons c a ih =>
    by_cases h : c = '/'
    · subst h
      rw [List.cons_append, splitSlash, if_pos rfl, ih, splitSlash, if_pos rfl,
        List.cons_append]
    · rw [List.cons_append, splitSlash, if_neg h, ih]
      rcases hq : splitSlash a with _ | ⟨t, ts⟩
      · exact absurd hq (splitSlash_ne_nil a)
      · rw [splitSlash, if_neg h, hq]
        simp

lemma joinSlash_cons_of_ne (s : List Char) (rest : List (List Char))
    (h : rest ≠ []) : joinSlash (s :: rest) = s ++ '/' :: joinSlash rest := by
  cases rest with
  | nil => exact absurd rfl h
  | cons t ts => rfl

lemma joinSlash_append (a b : List (List Char)) (ha : a ≠ []) (hb : b ≠ []) :
    joinSlash (a ++ b) = joinSlash a ++ '/' :: joinSlash b := by
  induction a with
  | nil => exact absurd rfl ha
  | cons s ss ih =>
    cases ss with
    | nil =>
      rw [List.cons_append, List.nil_append, joinSlash_cons_of_ne s b hb]
      rfl
    | cons t ts =>
      rw [List.cons_append, joinSlash_cons_of_ne s ((t :: ts) ++ b) (by simp),
        joinSlash_cons_of_ne s (t :: ts) (by simp), ih (by simp)]
      simp

lemma splitSlash_joinSlash (ss : List (List Char)) (h : ss ≠ [])
    (hs : ∀ s ∈ ss, '/' ∉ s) : splitSlash (joinSlash ss) = ss := by
  induction ss with
  | nil => exact absurd rfl h
  | cons s rest ih =>
    cases rest with
    | nil => exact splitSlash_single s (hs s (List.mem_cons_self _ _))
    | cons t ts =>
      rw [joinSlash_cons_of_ne s (t :: ts) (by simp), splitSlash_append,
        splitSlash_single s (hs s (List.mem_cons_self _ _)),
        ih (by simp) (fun x hx => hs x (List.mem_cons_of_mem _ hx))]
      rfl

lemma cleanPush_skip (rooted : Bool) (st : List (List Char))
    (seg : List Char) (h : seg = [] ∨ seg = ['.']) :
    cleanPush rooted st seg = st := by
  unfold cleanPush
  rw [if_pos h]

lemma cleanPush_normal (rooted : Bool) (st : List (List Char))
    (seg : List Char) (h : NormalSeg seg) : cleanPush rooted st seg = seg :: st := by
  obtain ⟨h1, h2, h3, _⟩ := h
  unfold cleanPush
  rw [if_neg (not_or.mpr ⟨h1, h2⟩), if_neg h3]

lemma foldl_push_normals (rooted : Bool) (segs : List (List Char))
    (st : List (List Char)) (h : ∀ s ∈ segs, NormalSeg s) :
    segs.foldl (cleanPush rooted) st = segs.reverse ++ st := by
  induction segs generalizing st with
  | nil => rfl
  | cons s rest ih =>
    rw [List.foldl_cons,
      cleanPush_normal rooted st s (h s (List.mem_cons_self _ _)),
      ih (s :: st) (fun x hx => h x (List.mem_cons_of_mem _ hx))]
    simp

lemma goodStack_nil (rooted : Bool) : GoodStack rooted [] :=
  ⟨[], [], rfl, by simp, by simp, fun _ => rfl⟩

lemma cleanPush_good (rooted : Bool) (st : List (List Char))
    (seg : List Char) (hseg : '/' ∉ seg) (h : GoodStack rooted st) :
    GoodStack rooted (cleanPush rooted st seg) := by
  obtain ⟨ns, ds, hst, hns, hds, hrooted⟩ := h
  subst hst
  by_cases h1 : seg = [] ∨ seg = ['.']
  · rw [cleanPush_skip _ _ _ h1]
    exact ⟨ns, ds, rfl, hns, hds, hrooted⟩
  · by_cases h2 : seg = ['.', '.']
    · subst h2
      unfold cleanPush
      rw [if_neg h1, if_pos rfl]
      rcases ns with _ | ⟨n, ns'⟩
      · rw [List.nil_append]
        cases ds with
        | nil =>
          cases rooted with
          | false => exact ⟨[], [['.', '.']], rfl, by simp, by simp, by simp⟩
          | true => exact ⟨[], [], rfl, by simp, by simp, fun _ => rfl⟩
        | cons d ds' =>
          have hd : d = ['.', '.'] := hds d (List.mem_cons_self _ _)
          show GoodStack rooted
            (if d = ['.', '.'] then ['.', '.'] :: d :: ds' else ds')
          rw [if_pos hd]
          cases rooted with
          | true => exact absurd (hrooted rfl) (by simp)
          | false =>
            refine ⟨[], ['.', '.'] :: d :: ds', rfl, by simp, ?_, by simp⟩
            intro s hs
            rcases List.mem_cons.mp hs with rfl | hs
            · rfl
            · exact hds s hs
      · have hn : NormalSeg n := hns n (List.mem_cons_self _ _)
        rw [List.cons_append]
        show GoodStack rooted
          (if n = ['.', '.'] then ['.', '.'] :: n :: (ns' ++ ds)
           else ns' ++ ds)
        rw [if_neg hn.2.2.1]
        exact ⟨ns', ds, rfl, fun s hs => hns s (List.mem_cons_of_mem _ hs),
          hds, hrooted⟩
    · have hN : NormalSeg seg :=
        ⟨fun e => h1 (Or.inl e), fun e => h1 (Or.inr e), h2, hseg⟩
      rw [cleanPush_normal _ _ _ hN]
      refine ⟨seg :: ns, ds, by simp, ?_, hds, hrooted⟩
      intro s hs
      rcases List.mem_cons.mp hs with rfl | hs
      · exact hN
      · exact hns s hs

lemma foldl_good (rooted : Bool) (segs : List (List Char))
    (h : ∀ s ∈ segs, '/' ∉ s) :
    ∀ st, GoodStack rooted st →
      GoodStack rooted (segs.foldl (cleanPush rooted) st) := by
  induction segs with
  | nil => intro st hst; exact hst
  | cons s rest ih =>
    intro st hst
    rw [List.foldl_cons]
    exact ih (fun x hx => h x (List.mem_cons_of_mem _ hx)) _
      (cleanPush_good rooted st s (h s (List.mem_cons_self _ _)) hst)

lemma clean_form (cs : List Char) :
    clean cs = ['.'] ∨
    (∃ ns, (∀ s ∈ ns, NormalSeg s) ∧ clean cs = '/' :: joinSlash ns) ∨
    (∃ k ns, (k ≠ 0 ∨ ns ≠ []) ∧ (∀ s ∈ ns, NormalSeg s) ∧
      clean cs = joinSlash (List.replicate k ['.', '.'] ++ ns)) := by
  by_cases h0 : cs = []
  · left; rw [h0]; rfl
  · by_cases hr : cs.head? = some '/'
    · right; left
      obtain ⟨ns, ds, hst, hns, hds, hrooted⟩ :=
        foldl_good true (splitSlash cs) (splitSlash_no_slash cs) []
          (goodStack_nil true)
      rw [hrooted rfl, List.append_nil] at hst
      refine ⟨ns.reverse, fun s hs => hns s (List.mem_reverse.mp hs), ?_⟩
      unfold clean
      rw [if_neg h0, if_pos hr, hst]
    · obtain ⟨ns, ds, hst, hns, hds, _⟩ :=
        foldl_good false (splitSlash cs) (splitSlash_no_slash cs) []
          (goodStack_nil false)
      have hdsrep : ds.reverse = List.replicate ds.length ['.', '.'] := by
        have h1 : ds.reverse = List.replicate ds.reverse.length ['.', '.'] :=
          List.eq_replicate_of_mem
            (fun s hs => hds s (List.mem_reverse.mp hs))
        rw [h1, List.length_reverse]
      by_cases hempty : ns = [] ∧ ds = []
      · left
        unfold clean
        rw [if_neg h0, if_neg hr]
        rw [hst, hempty.1, hempty.2]
        rfl
      · right; right
        refine ⟨ds.length, ns.reverse, ?_,
          fun s hs => hns s (List.mem_reverse.mp hs), ?_⟩
        · by_cases hns0 : ns = []
          · left
            intro hlen
            exact hempty ⟨hns0, List.length_eq_zero.mp hlen⟩
          · right
            simpa using hns0
        · unfold clean
          rw [if_neg h0, if_neg hr, hst, List.reverse_append, hdsrep]
          rw [if_neg]
          intro he
          rcases List.append_eq_nil.mp he with ⟨he1, he2⟩
          exact hempty ⟨by simpa using he2, by
            have := congrArg List.length he1
            simpa using List.length_eq_zero.mp (by simpa using this)⟩

lemma strip_no_lead (cs : List Char) :
    ¬ (['.', '.', '/'] <+: stripDotDot cs) := by
  induction cs using stripDotDot.induct with
  | case1 c1 c2 c3 rest hc ih =>
    rw [stripDotDot, if_pos hc]
    exact ih
  | case2 c1 c2 c3 rest hc =>
    rw [stripDotDot, if_neg hc]
    rintro ⟨t, ht⟩
    rw [List.cons_append, List.cons_append, List.cons_append,
      List.nil_append] at ht
    injection ht with e1 ht
    injection ht with e2 ht
    injection ht with e3 _
    exact hc ⟨e1.symm, e2.symm, e3.symm⟩
  | case3 cs h =>
    rintro ⟨t, ht⟩
    rcases cs with _ | ⟨a, _ | ⟨b, _ | ⟨c, rest⟩⟩⟩
    · rw [show stripDotDot [] = [] from rfl] at ht
      have hl := congrArg List.length ht
      simp only [List.length_append, List.length_cons, List.length_nil] at hl
      omega
    · rw [show stripDotDot [a] = [a] from rfl] at ht
      have hl := congrArg List.length ht
      simp only [List.length_append, List.length_cons, List.length_nil] at hl
      omega
    · rw [show stripDotDot [a, b] = [a, b] from rfl] at ht
      have hl := congrArg List.length ht
      simp only [List.length_append, List.length_cons, List.length_nil] at hl
      omega
    · exact absurd rfl (h a b c rest)

lemma strip_of_no_lead (cs : List Char)
    (h : ¬ (['.', '.', '/'] <+: cs)) : stripDotDot cs = cs := by
  rcases cs with _ | ⟨c1, _ | ⟨c2, _ | ⟨c3, rest⟩⟩⟩
  · rfl
  · rfl
  · rfl
  · rw [stripDotDot, if_neg]
    rintro ⟨e1, e2, e3⟩
    subst e1; subst e2; subst e3
    exact h ⟨rest, rfl⟩

lemma strip_slash_head (x : List Char) : stripDotDot ('/' :: x) = '/' :: x := by
  apply strip_of_no_lead
  rintro ⟨t, ht⟩
  injection ht with e _
  exact absurd e (by decide)

lemma joinSlash_ne_nil_head (ns : List (List Char)) (hne : ns ≠ [])
    (hN : ∀ s ∈ ns, NormalSeg s) :
    joinSlash ns ≠ [] ∧ (joinSlash ns).head? ≠ some '/' := by
  rcases ns with _ | ⟨n, rest⟩
  · exact absurd rfl hne
  · have hn : NormalSeg n := hN n (List.mem_cons_self _ _)
    rcases hc : n with _ | ⟨c, n'⟩
    · exact absurd hc hn.1
    · subst hc
      have hcne : c ≠ '/' := by
        intro e
        apply hn.2.2.2
        rw [e]
        exact List.mem_cons_self _ _
      rcases rest with _ | ⟨r, rs⟩
      · refine ⟨?_, ?_⟩
        · rw [show joinSlash [c :: n'] = c :: n' from rfl]
          simp
        · rw [show joinSlash [c :: n'] = c :: n' from rfl]
          simpa using hcne
      · rw [joinSlash_cons_of_ne _ (r :: rs) (by simp), List.cons_append]
        exact ⟨by simp, by simpa using hcne⟩

lemma joinSlash_no_lead (ns : List (List Char)) (hne : ns ≠ [])
    (hN : ∀ s ∈ ns, NormalSeg s) :
    ¬ (['.', '.', '/'] <+: joinSlash ns) := by
  rcases ns with _ | ⟨n, rest⟩
  · exact absurd rfl hne
  · have hn : NormalSeg n := hN n (List.mem_cons_self _ _)
    obtain ⟨hne', hdot, hdd, hslash⟩ := hn
    rintro ⟨t, ht⟩
    rw [List.cons_append, List.cons_append, List.cons_append,
      List.nil_append] at ht
    rcases n with _ | ⟨a, _ | ⟨b, _ | ⟨c, n'⟩⟩⟩
    · exact hne' rfl
    · rcases rest with _ | ⟨r, rs⟩
      · exact absurd (congrArg List.length ht) (by simp [joinSlash])
      · rw [joinSlash_cons_of_ne _ (r :: rs) (by simp),
          List.cons_append, List.nil_append] at ht
        injection ht with e1 ht
        injection ht with e2 _
        exact absurd e2 (by decide)
    · rcases rest with _ | ⟨r, rs⟩
      · exact absurd (congrArg List.length ht) (by simp [joinSlash])
      · rw [joinSlash_cons_of_ne _ (r :: rs) (by simp),
          List.cons_append, List.cons_append, List.nil_append] at ht
        injection ht with e1 ht
        injection ht with e2 _
        subst e1; subst e2
        exact hdd rfl
    · have hc : c = '/' := by
        rcases rest with _ | ⟨r, rs⟩
        · show c = '/'
          have : joinSlash [a :: b :: c :: n'] = a :: b :: c :: n' := rfl
          rw [this] at ht
          injection ht with _ ht
          injection ht with _ ht
          injection ht with e _
          exact e.symm
        · rw [joinSlash_cons_of_ne _ (r :: rs) (by simp),
            List.cons_append, List.cons_append, List.cons_append] at ht
          injection ht with _ ht
          injection ht with _ ht
          injection ht with e _
          exact e.symm
      exact hslash (by
        rw [hc]
        exact List.mem_cons_of_mem _ (List.mem_cons_of_mem _
          (List.mem_cons_self _ _)))

lemma strip_join_normals (ns : List (List Char)) (hne : ns ≠ [])
    (hN : ∀ s ∈ ns, NormalSeg s) :
    stripDotDot (joinSlash ns) = joinSlash ns :=
  strip_of_no_lead _ (joinSlash_no_lead ns hne hN)

lemma strip_replicate_normals (k : Nat) (ns : List (List Char))
    (hne : ns ≠ []) (hN : ∀ s ∈ ns, NormalSeg s) :
    stripDotDot (joinSlash (List.replicate k ['.', '.'] ++ ns)) =
      joinSlash ns := by
  induction k with
  | zero => simpa using strip_join_normals ns hne hN
  | succ k ih =>
    rw [List.replicate_succ, List.cons_append,
      joinSlash_cons_of_ne _ _ (by simp [hne])]
    rw [show ((['.', '.'] : List Char) ++
        '/' :: joinSlash (List.replicate k ['.', '.'] ++ ns)) =
        '.' :: '.' :: '/' :: joinSlash (List.replicate k ['.', '.'] ++ ns)
      from rfl]
    rw [stripDotDot, if_pos ⟨rfl, rfl, rfl⟩]
    exact ih

lemma strip_all_dotdot (k : Nat) (h : k ≠ 0) :
    stripDotDot (joinSlash (List.replicate k ['.', '.'])) = ['.', '.'] := by
  induction k with
  | zero => exact absurd rfl h
  | succ k ih =>
    cases k with
    | zero => rfl
    | succ k' =>
      rw [List.replicate_succ, joinSlash_cons_of_ne _ _ (by simp)]
      rw [show ((['.', '.'] : List Char) ++
          '/' :: joinSlash (List.replicate (k' + 1) ['.', '.'])) =
          '.' :: '.' :: '/' :: joinSlash (List.replicate (k' + 1) ['.', '.'])
        from rfl]
      rw [stripDotDot, if_pos ⟨rfl, rfl, rfl⟩]
      exact ih (by simp)

/-- Every sanitized path is `"."`, `".."`, a rooted path of normal
segments, or a non-empty relative path of normal segments. -/
lemma sanitize_form (cs : List Char) :
    sanitizeL cs = ['.'] ∨ sanitizeL cs = ['.', '.'] ∨
    (∃ ns, (∀ s ∈ ns, NormalSeg s) ∧ sanitizeL cs = '/' :: joinSlash ns) ∨
    (∃ ns, ns ≠ [] ∧ (∀ s ∈ ns, NormalSeg s) ∧
      sanitizeL cs = joinSlash ns) := by
  unfold sanitizeL
  rcases clean_form cs with h | ⟨ns, hN, h⟩ | ⟨k, ns, hkn, hN, h⟩
  · left; rw [h]; rfl
  · right; right; left
    exact ⟨ns, hN, by rw [h, strip_slash_head]⟩
  · rcases eq_or_ne ns [] with rfl | hne
    · right; left
      have hk : k ≠ 0 := by
        rcases hkn with hk | hne'
        · exact hk
        · exact absurd rfl hne'
      rw [h, List.append_nil]
      exact strip_all_dotdot k hk
    · right; right; right
      exact ⟨ns, hne, hN, by rw [h]; exact strip_replicate_normals k ns hne hN⟩

lemma sanitize_fix_rooted (ns : List (List Char))
    (hN : ∀ s ∈ ns, NormalSeg s) :
    sanitizeL ('/' :: joinSlash ns) = '/' :: joinSlash ns := by
  unfold sanitizeL
  have hclean : clean ('/' :: joinSlash ns) = '/' :: joinSlash ns := by
    unfold clean
    rw [if_neg (by simp),
      if_pos (show ('/' :: joinSlash ns).head? = some '/' from rfl)]
    rw [show splitSlash ('/' :: joinSlash ns) =
        [] :: splitSlash (joinSlash ns) from by rw [splitSlash, if_pos rfl]]
    rw [List.foldl_cons, cleanPush_skip true [] [] (Or.inl rfl)]
    rcases eq_or_ne ns [] with rfl | hne
    · rfl
    · rw [splitSlash_joinSlash ns hne (fun x hx => (hN x hx).2.2.2),
        foldl_push_normals true ns [] hN, List.append_nil,
        List.reverse_reverse]
  rw [hclean, strip_slash_head]

lemma sanitize_fix_rel (ns : List (List Char)) (hne : ns ≠ [])
    (hN : ∀ s ∈ ns, NormalSeg s) :
    sanitizeL (joinSlash ns) = joinSlash ns := by
  unfold sanitizeL
  obtain ⟨hjne, hjhead⟩ := joinSlash_ne_nil_head ns hne hN
  have hclean : clean (joinSlash ns) = joinSlash ns := by
    unfold clean
    rw [if_neg hjne, if_neg hjhead]
    rw [splitSlash_joinSlash ns hne (fun x hx => (hN x hx).2.2.2),
      foldl_push_normals false ns [] hN, List.append_nil,
      List.reverse_reverse]
    rw [if_neg hne]
  rw [hclean]
  exact strip_join_normals ns hne hN

lemma clean_root_append (rsegs : List (List Char)) (hrne : rsegs ≠ [])
    (hrN : ∀ s ∈ rsegs, NormalSeg s) (s : List Char) :
    clean (('/' :: joinSlash rsegs) ++ '/' :: s) =
      '/' :: joinSlash
        (((splitSlash s).foldl (cleanPush true) rsegs.reverse).reverse) := by
  unfold clean
  rw [if_neg (by simp),
    if_pos (show (('/' :: joinSlash rsegs) ++ '/' :: s).head? = some '/'
      from rfl)]
  rw [show ('/' :: joinSlash rsegs) ++ '/' :: s =
      '/' :: (joinSlash rsegs ++ '/' :: s) from rfl]
  rw [show splitSlash ('/' :: (joinSlash rsegs ++ '/' :: s)) =
      [] :: splitSlash (joinSlash rsegs ++ '/' :: s) from by
    rw [splitSlash, if_pos rfl]]
  rw [splitSlash_append,
    splitSlash_joinSlash rsegs hrne (fun x hx => (hrN x hx).2.2.2)]
  rw [List.foldl_cons, cleanPush_skip true [] [] (Or.inl rfl),
    List.foldl_append, foldl_push_normals true rsegs [] hrN,
    List.append_nil]

lemma root_decompose (root : List Char) (h1 : root.head? = some '/')
    (h2 : clean root = root) :
    ∃ rsegs, (∀ s ∈ rsegs, NormalSeg s) ∧ root = '/' :: joinSlash rsegs := by
  rcases clean_form root with h | ⟨ns, hN, h⟩ | ⟨k, ns, hkn, hN, h⟩
  · rw [h2] at h
    rw [h] at h1
    exact absurd h1 (by decide)
  · exact ⟨ns, hN, by rw [← h2, h]⟩
  · exfalso
    rw [h2] at h
    cases k with
    | zero =>
      rw [List.replicate_zero, List.nil_append] at h
      have hne : ns ≠ [] := by
        rcases hkn with hk | hne
        · exact absurd rfl hk
        · exact hne
      rw [h] at h1
      exact (joinSlash_ne_nil_head ns hne hN).2 h1
    | succ k' =>
      by_cases hnil : List.replicate k' ['.', '.'] ++ ns = []
      · rw [List.replicate_succ, List.cons_append, hnil] at h
        rw [h] at h1
        exact absurd h1 (by decide)
      · rw [List.replicate_succ, List.cons_append,
          joinSlash_cons_of_ne _ _ hnil] at h
        rw [h] at h1
        simp at h1

/-! ## Claim theorems -/

/-- C1 (counterexample): `sanitize("..") = ".."` — it does not begin with
`"../"`, but `filepath.Join("/tmp/dest", "..")` resolves to `"/tmp"`,
which lies outside the destination root `"/tmp/dest"`: sanitized entry
paths are not always safely joinable with the destination root. -/
theorem sanitize_dotdot_escapes :
    sanitize ".." = ".."
    ∧ joinS "/tmp/dest" (sanitize "..") = "/tmp"
    ∧ ¬ isWithin "/tmp/dest".data (joinS "/tmp/dest" (sanitize "..")).data := by
  decide

/-- C1 (amended): for every path `P`, `sanitize(P)` never begins with
`"../"`; and joining any well-formed destination root (a cleaned absolute
path other than `"/"`) with `sanitize(P)` yields a path inside that root
— except in the single escaping case `sanitize(P) = ".."` (reachable,
e.g., from `P = ".."`), which the hypothesis excludes. -/
theorem sanitize_no_traversal_amended (P root : String)
    (h1 : root.data.head? = some '/') (h2 : clean root.data = root.data)
    (h3 : root.data ≠ ['/']) (h4 : sanitize P ≠ "..") :
    ¬ (['.', '.', '/'] <+: (sanitize P).data)
    ∧ isWithin root.data (joinS root (sanitize P)).data := by
  obtain ⟨rsegs, hrN, hroot⟩ := root_decompose root.data h1 h2
  have hrne : rsegs ≠ [] := by
    intro e
    apply h3
    rw [hroot, e]
    rfl
  have hrd : root.data ≠ [] := by rw [hroot]; simp
  constructor
  · exact strip_no_lead (clean P.data)
  · show isWithin root.data (joinL root.data (sanitizeL P.data))
    rcases sanitize_form P.data with h | h | ⟨ssegs, hsN, h⟩ |
      ⟨ssegs, hsne, hsN, h⟩
    · rw [h]
      left
      unfold joinL
      rw [if_neg hrd, if_neg (by simp), hroot]
      rw [clean_root_append rsegs hrne hrN ['.']]
      rw [show splitSlash ['.'] = [['.']] from rfl]
      rw [List.foldl_cons, cleanPush_skip true _ _ (Or.inr rfl),
        List.foldl_nil]
      try rw [List.reverse_reverse]
    · exfalso
      apply h4
      have heq : sanitize P = ⟨['.', '.']⟩ := congrArg String.mk h
      rw [heq]
    · rw [h]
      unfold joinL
      rw [if_neg hrd, if_neg (by simp), hroot]
      rw [clean_root_append rsegs hrne hrN ('/' :: joinSlash ssegs)]
      rw [show splitSlash ('/' :: joinSlash ssegs) =
          [] :: splitSlash (joinSlash ssegs) from by
        rw [splitSlash, if_pos rfl]]
      rw [List.foldl_cons, cleanPush_skip true _ _ (Or.inl rfl)]
      rcases eq_or_ne ssegs [] with rfl | hsne
      · rw [show joinSlash ([] : List (List Char)) = [] from rfl,
          show splitSlash ([] : List Char) = [[]] from rfl]
        rw [List.foldl_cons, cleanPush_skip true _ _ (Or.inl rfl),
          List.foldl_nil]
        try rw [List.reverse_reverse]
        left
        rfl
      · rw [splitSlash_joinSlash ssegs hsne (fun x hx => (hsN x hx).2.2.2)]
        rw [foldl_push_normals true ssegs rsegs.reverse hsN,
          List.reverse_append, List.reverse_reverse, List.reverse_reverse]
        rw [joinSlash_append rsegs ssegs hrne hsne]
        right
        refine ⟨joinSlash ssegs, ?_⟩
        simp
    · rw [h]
      unfold joinL
      rw [if_neg hrd, if_neg (joinSlash_ne_nil_head ssegs hsne hsN).1, hroot]
      rw [clean_root_append rsegs hrne hrN (joinSlash ssegs)]
      rw [splitSlash_joinSlash ssegs hsne (fun x hx => (hsN x hx).2.2.2)]
      rw [foldl_push_normals true ssegs rsegs.reverse hsN,
        List.reverse_append, List.reverse_reverse, List.reverse_reverse]
      rw [joinSlash_append rsegs ssegs hrne hsne]
      right
      refine ⟨joinSlash ssegs, ?_⟩
      simp

/-- Witness for `sanitize_no_traversal_amended` at the concrete input
`P = "a/../b"`, `root = "/dest"`: the sanitized path has no leading
`"../"` and the join stays inside the root. -/
theorem sanitize_no_traversal_amended_witness :
    ¬ (['.', '.', '/'] <+: (sanitize "a/../b").data)
    ∧ isWithin "/dest".data (joinS "/dest" (sanitize "a/../b")).data :=
  sanitize_no_traversal_amended "a/../b" "/dest" (by decide) (by decide)
    (by decide) (by decide)

/-- C8: `sanitize` is idempotent: every output — `"."`, `".."`, a rooted
path of normal segments, or a relative path of normal segments — is a
fixed point of the clean-then-strip pipeline. -/
theorem sanitize_idempotent (P : String) :
    sanitize (sanitize P) = sanitize P := by
  show String.mk (sanitizeL (sanitizeL P.data)) = String.mk (sanitizeL P.data)
  congr 1
  rcases sanitize_form P.data with h | h | ⟨ns, hN, h⟩ | ⟨ns, hne, hN, h⟩
  · rw [h]; decide
  · rw [h]; decide
  · rw [h]
    exact sanitize_fix_rooted ns hN
  · rw [h]
    exact sanitize_fix_rel ns hne hN

/-- Witness for `sanitize_idempotent` at the concrete input
`"../../x"`. -/
theorem sanitize_idempotent_witness :
    sanitize (sanitize "../../x") = sanitize "../../x" :=
  sanitize_idempotent "../../x"

/-- C10: `sanitize` never returns the empty string; inputs that normalize
away entirely (the empty string, `"."`, `"a/.."`) produce `"."`. -/
theorem sanitize_nonempty :
    (∀ P : String, sanitize P ≠ "") ∧ sanitize "" = "."
    ∧ sanitize "." = "." ∧ sanitize "a/.." = "." := by
  refine ⟨?_, by decide, by decide, by decide⟩
  intro P hP
  have hd : sanitizeL P.data = ("" : String).data := congrArg String.data hP
  rw [show ("" : String).data = [] from rfl] at hd
  rcases sanitize_form P.data with h | h | ⟨ns, hN, h⟩ | ⟨ns, hne, hN, h⟩ <;>
    rw [h] at hd
  · exact absurd hd (by simp)
  · exact absurd hd (by simp)
  · exact absurd hd (by simp)
  · exact (joinSlash_ne_nil_head ns hne hN).1 hd

/-- Witness for `sanitize_nonempty` at the concrete input `"q/.."`. -/
theorem sanitize_nonempty_witness : sanitize "q/.." ≠ "" :=
  sanitize_nonempty.1 "q/.."

/-- C9: `sanitize` maps each of the spec's example inputs to exactly the
stated output; in particular leading dots that are not exactly `.` or
`..` segments are left untouched. -/
theorem sanitize_table :
    sanitize "../../.././etc/passwd" = "etc/passwd" ∧
    sanitize "./etc/passwd" = "etc/passwd" ∧
    sanitize "a/b/c/../d" = "a/b/d" ∧
    sanitize "a/../../c" = "c" ∧
    sanitize "...../etc/password" = "...../etc/password" := by
  decide

/-- C3 (code bug, failing input): `unzipFile` creates a ZIP directory
entry at `filepath.Join(destPath, f.Name)` using the raw declared name —
`sanitize` is applied to file entries but not to directory entries
(unzipit.go:281 vs unzipit.go:297) — so the directory entry named
`"../evil"` (mode `0755`) is created at `/tmp/evil`, outside the
destination root `/tmp/dest`, whereas the claimed location
`destRoot/sanitize(entryPath)` is `/tmp/dest/evil`. -/
theorem unzipFile_dir_skips_sanitize :
    unzipFile env0 ⟨"../evil", true, 493, 0, 0, []⟩ "/tmp/dest"
      = ([FSOp.mkdirAll "/tmp/evil" 493], none)
    ∧ joinS "/tmp/dest" (sanitize "../evil") = "/tmp/dest/evil"
    ∧ ("/tmp/evil" : String) ≠ "/tmp/dest/evil" := by
  decide

/-- C6 (counterexample): for a regular ZIP file entry the extractor
performs `Chmod` and `Chtimes` after creating the file but *before*
copying the declared byte count (unzipit.go:321-331), so the effect trace
is create–chmod–chtimes–write, not the claimed create–write–chmod–chtimes. -/
theorem unzipFile_metadata_before_copy :
    unzipFile env0 ⟨"f.txt", false, 420, 7, 3, [1, 2, 3]⟩ "/d"
      = ([FSOp.create "/d/f.txt", FSOp.chmod "/d/f.txt" 420,
          FSOp.chtimes "/d/f.txt" 7, FSOp.write "/d/f.txt" [1, 2, 3]], none)
    ∧ unzipFile env0 ⟨"f.txt", false, 420, 7, 3, [1, 2, 3]⟩ "/d"
      ≠ ([FSOp.create "/d/f.txt", FSOp.write "/d/f.txt" [1, 2, 3],
          FSOp.chmod "/d/f.txt" 420, FSOp.chtimes "/d/f.txt" 7], none) := by
  decide

/-- C4 (counterexample): a TAR archive with two top-level directories
`a` and `b` does not make `Untar` return the destination root: `rootdir`
is set to the first directory entry's resolved path `/dest/a`
(unzipit.go:365-367) and never reset. -/
theorem untar_multiroot_not_destroot :
    (Untar env0 [⟨"a", true, 493, 0, []⟩, ⟨"b", true, 493, 0, []⟩]
        "/dest").2 = "/dest/a"
    ∧ ("/dest/a" : String) ≠ "/dest" := by
  decide

/-- C2 (counterexample): a 6-byte stream of zeros is recognized neither
as ZIP nor as TAR, yet `UnpackStream` returns an error instead of writing
the fallback file: the offset-257 TAR sniff peeks 263 bytes
(unzipit.go:147-150) and the peek failure on the short stream is
propagated. -/
theorem unpackStream_short_stream_errors :
    magicNumber (List.replicate 6 0) 0 = .ok ""
    ∧ UnpackStream codecs0 env0 (List.replicate 6 0) "/dest"
      = ([], "", some GoErr.readErr) := by
  decide

/-- C7 (counterexample): `Bunzip2Stream` cannot fail at initialization:
Go's `bzip2.NewReader` has type `func(io.Reader) io.Reader`, so
unzipit.go:190 always returns a `nil` error — here on the bytes
`[0, 1, 2]`, which are not a valid bzip2 header (the bzip2 magic is
`0x42 0x5a`), a stream is still returned with no error. -/
theorem bunzip2Stream_never_fails :
    Bunzip2Stream (fun x => x) [0, 1, 2] = .ok [0, 1, 2] := by
  decide

/-- C7 (amended): a malformed-header initialization error from
`gzip.NewReader` or `xz.NewReader` propagates out of `GunzipStream` /
`UnxzStream` with no partial stream returned; `Bunzip2Stream`, however,
never fails at initialization — Go's `bzip2.NewReader` returns no error
and validates lazily on first read. -/
theorem decompressionInit_amended
    (g u : List Nat → Except GoErr (List Nat)) (b : List Nat → List Nat)
    (r : List Nat) (e : GoErr) :
    (g r = .error e → GunzipStream g r = .error e)
    ∧ (u r = .error e → UnxzStream u r = .error e)
    ∧ Bunzip2Stream b r = .ok (b r) := by
  refine ⟨fun h => ?_, fun h => ?_, rfl⟩
  · simp only [GunzipStream, h]
  · simp only [UnxzStream, h]

/-- C5: when the stream is long enough to peek `offset+6` bytes, the
sniffer returns — with no error — exactly the tag obtained by comparing
the 6-byte window at `offset` against the signatures in the fixed
precedence order TAR, ZIP, GZIP, BZIP2, XZ, unknown; when the stream is
too short for the peek, it returns the peek's read error. -/
theorem magicNumber_spec (r : List Nat) (offset : Nat) :
    (offset + 6 ≤ r.length →
      magicNumber r offset = .ok (classifySpec ((r.drop offset).take 6)))
    ∧ (r.length < offset + 6 →
      magicNumber r offset = .error GoErr.readErr) := by
  constructor
  · intro h
    unfold magicNumber classifySpec
    rw [if_pos h, ← List.take_drop]
    split_ifs <;> rfl
  · intro h
    unfold magicNumber
    rw [if_neg (by omega)]

/-- Witness for `magicNumber_spec`: on a concrete 6-byte gzip-magic
stream the sniffer classifies `gzip` with no error, and on a concrete
3-byte stream the peek fails. -/
theorem magicNumber_spec_witness :
    magicNumber [0x1f, 0x8b, 0, 0, 0, 0] 0 = .ok "gzip"
    ∧ magicNumber [0, 0, 0] 0 = .error GoErr.readErr := by
  constructor
  · have h := (magicNumber_spec [0x1f, 0x8b, 0, 0, 0, 0] 0).1 (by decide)
    rw [h]; decide
  · exact (magicNumber_spec [0, 0, 0] 0).2 (by decide)

/-- C2 (amended): provided both sniffs succeed — the input is at least 6
bytes and the (possibly decompressed) stream at least 263 bytes — and the
decompression layer initializes, an input recognized neither as ZIP (at
offset 0) nor as TAR (at offset 257 of the decompressed stream) is not an
error: `UnpackStream` creates exactly one output file,
`destPath/unknown-pack`, containing the verbatim remaining bytes of the
(possibly decompressed) stream, and returns `destPath`. -/
theorem unpackStream_fallback_amended (c : Codecs) (env : Env)
    (input dec : List Nat) (destPath : String) (ft ft2 : String)
    (h0 : magicNumber input 0 = .ok ft) (h1 : ft ≠ "zip")
    (h2 : (if ft = "gzip" then GunzipStream c.gunzip input
           else if ft = "xz" then UnxzStream c.unxz input
           else if ft = "bzip" then Bunzip2Stream c.bunzip2 input
           else Except.ok input) = .ok dec)
    (h3 : magicNumber dec 257 = .ok ft2) (h4 : ft2 ≠ "tar") :
    UnpackStream c env input destPath =
      ([FSOp.create (joinS destPath (sanitize "unknown-pack")),
        FSOp.write (joinS destPath (sanitize "unknown-pack")) dec],
       destPath, none) := by
  unfold UnpackStream
  rw [h0]
  show (if ft = "zip" then _ else _) = _
  rw [if_neg h1, h2]
  show (match magicNumber dec 257 with
        | .error e => ([], "", some e)
        | .ok ftype2 => _) = _
  rw [h3]
  show (if ft2 = "tar" then _ else _) = _
  rw [if_neg h4]

set_option maxRecDepth 8000 in
/-- Witness for `unpackStream_fallback_amended`: a 263-byte all-zero
stream (unknown format, long enough for both sniffs) is written verbatim
to `/dest/unknown-pack` and `/dest` is returned. -/
theorem unpackStream_fallback_amended_witness :
    UnpackStream codecs0 env0 (List.replicate 263 0) "/dest"
      = ([FSOp.create "/dest/unknown-pack",
          FSOp.write "/dest/unknown-pack" (List.replicate 263 0)],
         "/dest", none) := by
  have h := unpackStream_fallback_amended codecs0 env0
    (List.replicate 263 0) (List.replicate 263 0) "/dest" "" ""
    (by decide) (by decide) (by decide) (by decide) (by decide)
  rw [h]; decide

/-- C6 (amended): for a regular ZIP file entry whose reader yields at
least the declared byte count, extraction sanitizes the path, ensures
the parent directory, creates the destination file and succeeds — for
*any* outcome of the `Chmod`/`Chtimes` calls, whose failures are logged,
not fatal — and the key effects occur in the order create, chmod,
chtimes, then the copy of exactly the declared uncompressed byte count:
the metadata is applied after creation but *before* the copy, not after
it as the claim states. -/
theorem unzipFile_file_amended (env : Env) (f : ZipEntry)
    (destPath : String) (h1 : f.isDir = false)
    (h2 : f.uncompressedSize ≤ f.content.length) :
    (unzipFile env f destPath).2 = none ∧
    ((unzipFile env f destPath).1).filter keyOp =
      [FSOp.create (joinS destPath (sanitize f.name)),
       FSOp.chmod (joinS destPath (sanitize f.name)) f.mode,
       FSOp.chtimes (joinS destPath (sanitize f.name)) f.modTime,
       FSOp.write (joinS destPath (sanitize f.name))
         (f.content.take f.uncompressedSize)] := by
  refine ⟨?_, ?_⟩
  · simp only [unzipFile, h1, Bool.false_eq_true, ite_false, h2, ite_true]
  · simp only [unzipFile, h1, Bool.false_eq_true, ite_false, h2, ite_true]
    cases h3 : env.lstatExists (dirOfS (joinS destPath (sanitize f.name))) <;>
      cases h4 : env.chmodOk (joinS destPath (sanitize f.name)) <;>
        cases h5 : env.chtimesOk (joinS destPath (sanitize f.name)) <;>
          simp [keyOp]

/-- Witness for `unzipFile_file_amended` on a concrete entry: the trace
is create–chmod–chtimes–write with exactly the declared 2 of 3 available
bytes copied. -/
theorem unzipFile_file_amended_witness :
    (unzipFile env0 ⟨"w.txt", false, 420, 9, 2, [5, 6, 7]⟩ "/out").2 = none
    ∧ ((unzipFile env0 ⟨"w.txt", false, 420, 9, 2, [5, 6, 7]⟩ "/out").1).filter
        keyOp =
      [FSOp.create "/out/w.txt", FSOp.chmod "/out/w.txt" 420,
       FSOp.chtimes "/out/w.txt" 9, FSOp.write "/out/w.txt" [5, 6]] := by
  obtain ⟨ha, hb⟩ := unzipFile_file_amended env0
    ⟨"w.txt", false, 420, 9, 2, [5, 6, 7]⟩ "/out" rfl (by decide)
  exact ⟨ha, by rw [hb]; decide⟩

lemma untarLoop_rootdir (env : Env) (destPath : String)
    (hdrs : List TarHeader) : ∀ rootdir,
    (untarLoop env destPath hdrs rootdir).2 =
      if rootdir = destPath then firstDirRoot destPath hdrs else rootdir := by
  induction hdrs with
  | nil =>
    intro rootdir
    by_cases h : rootdir = destPath
    · rw [if_pos h, h]; rfl
    · rw [if_neg h]; rfl
  | cons hdr rest ih =>
    intro rootdir
    by_cases hp : hdr.name = "pax_global_header"
    · simp only [untarLoop, if_pos hp, ih rootdir]
      have hc : ¬(hdr.name ≠ "pax_global_header" ∧ hdr.isDir = true
          ∧ joinS destPath (sanitize hdr.name) ≠ destPath) := by
        simp [hp]
      simp only [firstDirRoot, if_neg hc]
    · by_cases hd : hdr.isDir = true
      · simp only [untarLoop, if_neg hp, hd, ite_true]
        rw [ih]
        by_cases h : rootdir = destPath
        · rw [if_pos h, if_pos h]
          by_cases hfp : joinS destPath (sanitize hdr.name) = destPath
          · rw [if_pos hfp]
            have hc : ¬(hdr.name ≠ "pax_global_header" ∧ hdr.isDir = true
                ∧ joinS destPath (sanitize hdr.name) ≠ destPath) := by
              simp [hfp]
            simp only [firstDirRoot, if_neg hc]
          · rw [if_neg hfp]
            have hc : hdr.name ≠ "pax_global_header" ∧ hdr.isDir = true
                ∧ joinS destPath (sanitize hdr.name) ≠ destPath :=
              ⟨hp, hd, hfp⟩
            simp only [firstDirRoot, if_pos hc]
        · rw [if_neg h, if_neg h, if_neg h]
      · simp only [untarLoop, if_neg hp, hd, Bool.false_eq_true, ite_false]
        rw [ih]
        have hc : ¬(hdr.name ≠ "pax_global_header" ∧ hdr.isDir = true
            ∧ joinS destPath (sanitize hdr.name) ≠ destPath) := by
          simp [hd]
        simp only [firstDirRoot, if_neg hc]

/-- C4 (amended): `Untar` returns the resolved path
`destRoot/sanitize(name)` of the *first* directory entry encountered
(skipping `pax_global_header` and entries resolving to the destination
root itself), whether or not the archive has a single top-level root; it
returns the destination root itself only when no such directory entry
exists.  In particular, for a single-top-level-root archive the first
directory entry's resolved path is returned, but for an archive with
multiple top-level directories the result is still the first directory
entry's path, not the destination root. -/
theorem untar_rootdir_amended (env : Env) (hdrs : List TarHeader)
    (destPath : String) :
    (Untar env hdrs destPath).2 = firstDirRoot destPath hdrs := by
  have h := untarLoop_rootdir env destPath hdrs destPath
  rw [if_pos rfl] at h
  exact h

/-- Witness for `decompressionInit_amended` at concrete inputs: an
initializer that rejects the (invalid) header `[0]` makes the gzip and xz
wrappers fail, and the bzip2 wrapper still succeeds on the same bytes. -/
theorem decompressionInit_amended_witness :
    GunzipStream (fun _ => .error .decodeErr) [0] = .error .decodeErr
    ∧ UnxzStream (fun _ => .error .decodeErr) [0] = .error .decodeErr
    ∧ Bunzip2Stream (fun x => x) [0] = .ok [0] := by
  have h := decompressionInit_amended (fun _ => .error .decodeErr)
    (fun _ => .error .decodeErr) (fun x => x) [0] .decodeErr
  exact ⟨h.1 rfl, h.2.1 rfl, h.2.2⟩

/-- Witness for `untar_rootdir_amended` on a concrete single-root
archive: the returned path is the first directory entry's resolved
path. -/
theorem untar_rootdir_amended_witness :
    (Untar env0 [⟨"top", true, 493, 0, []⟩,
      ⟨"top/f.txt", false, 420, 0, [1]⟩] "/dst").2 = "/dst/top" := by
  have h := untar_rootdir_amended env0 [⟨"top", true, 493, 0, []⟩,
    ⟨"top/f.txt", false, 420, 0, [1]⟩] "/dst"
  rw [h]
  decide
